import Mathlib

/-!
Verification development for two cores of the elrond-go processing layer:

* the Chunked Trie-Node Reassembly Processor (CTRP), embedded from
  `process/interceptors/processor/trieNodeChunksProcessor.go`, together with a
  chunk-slab model (the concrete `chunk` package is not part of the sources;
  the slab is modelled from the specification, §4.1);
* the Scheduled Transactions Execution Engine (STEE), modelled from the
  specification (§4.3–§4.6) and constrained by
  `process/block/preprocess/scheduledTxsExecution_test.go`.

Byte strings are embedded as lists of naturals; Go maps become association
lists; the single-consumer CTRP loop becomes explicit state passing over the
cache; fallible operations return `Option`/`Except`.
-/

namespace ElrondSpec

/-- A byte string, modelled as a list of byte values. -/
abbrev Bytes := List Nat

/-- The semantic error taxonomy of the two cores (spec §7).  `otherErr`
stands for any error outside the closed taxonomy, e.g. one produced by a
collaborating transaction processor. -/
inductive PErr where
  | failedTransaction
  | timeIsOut
  | nilHaveTimeHandler
  | missingTransaction
  | wrongTypeAssertion
  | incompatibleReference
  | otherErr (code : Nat)
  deriving DecidableEq, Repr

/-- Association-list lookup, the embedding of Go map reads. -/
def assocGet {κ α : Type} [DecidableEq κ] : List (κ × α) → κ → Option α
  | [], _ => none
  | (k, v) :: rest, key => if k = key then some v else assocGet rest key

/-! ## Chunk slab (spec §4.1)

Modelled from the spec: the `chunk` package implementing the `chunkHandler`
interface of `trieNodeChunksProcessor.go` is not among the sources; the slab
below follows spec §4.1 (`put`, `tryAssemble`, `missingIndices`, `size`),
with `filled == maxChunks` expressed as all slots being occupied. -/

/-- Modelled from the spec: a chunk slab holds `maxChunks` slots, each either
empty or a stored chunk buffer.  Created by `NewChunk`, which makes
`slots.length = maxChunks`. -/
structure Chunk where
  maxChunks : Nat
  slots : List (Option Bytes)
  deriving DecidableEq, Repr

/-- Modelled from the spec: a fresh slab with all `maxChunks` slots empty. -/
def NewChunk (maxChunks : Nat) : Chunk :=
  { maxChunks := maxChunks, slots := List.replicate maxChunks none }

/-- Modelled from the spec: store `buff` at `chunkIndex` if the index is in
range and the slot is empty; re-puts to a non-empty slot are no-ops. -/
def Chunk.Put (c : Chunk) (chunkIndex : Nat) (buff : Bytes) : Chunk :=
  if chunkIndex < c.maxChunks && (c.slots.getD chunkIndex (some [])).isNone then
    { c with slots := c.slots.set chunkIndex (some buff) }
  else c

/-- Modelled from the spec: if every slot is occupied, return the
concatenation of the slots in index order, else the empty buffer (the Go
implementation returns a nil byte slice when incomplete). -/
def Chunk.TryAssembleAllChunks (c : Chunk) : Bytes :=
  if c.slots.all Option.isSome then
    (c.slots.map (fun s => s.getD [])).flatten
  else []

/-- Modelled from the spec: ascending list of the empty slot indices. -/
def Chunk.GetAllMissingChunkIndexes (c : Chunk) : List Nat :=
  (List.range c.slots.length).filter (fun i => (c.slots.getD i (some [])).isNone)

/-- Modelled from the spec: sum of the stored buffer lengths. -/
def Chunk.Size (c : Chunk) : Nat :=
  (c.slots.map (fun s => (s.getD []).length)).sum

/-! ## CTRP core (`trieNodeChunksProcessor.go`) -/

/-- The batch wire shape (`data/batch`): `Batch { Reference, ChunkIndex,
MaxChunks, Data }`. -/
structure Batch where
  Reference : Bytes
  ChunkIndex : Nat
  MaxChunks : Nat
  Data : List Bytes
  deriving DecidableEq, Repr

/-- The `process.CheckedChunkResult` reply; a nil `CompleteBuffer` is the empty list. -/
structure CheckedChunkResult where
  IsChunk : Bool
  HaveAllChunks : Bool
  CompleteBuffer : Bytes
  deriving DecidableEq, Repr

/-- The chunks cacher, embedded as an association list from references to
slabs (the external `storage.Cacher` collaborator, used single-writer). -/
abbrev ChunksCache := List (Bytes × Chunk)

/-- The `Cacher.Get` operation. -/
def cacheGet (cache : ChunksCache) (key : Bytes) : Option Chunk :=
  assocGet cache key

/-- The `Cacher.Put` operation: replace the value under an existing key, else append. -/
def cachePut : ChunksCache → Bytes → Chunk → ChunksCache
  | [], key, v => [(key, v)]
  | (k, w) :: rest, key, v =>
    if k = key then (k, v) :: rest else (k, w) :: cachePut rest key v

/-- The `Cacher.Remove` operation. -/
def cacheRemove (cache : ChunksCache) (key : Bytes) : ChunksCache :=
  cache.filter (fun p => decide (p.1 ≠ key))

/-- The `Cacher.Keys` operation. -/
def cacheKeys (cache : ChunksCache) : List Bytes :=
  cache.map (fun p => p.1)

/-- Embeds `trieNodeChunksProcessor.batchIsValid` (lines 153–165): returns the
validity flag and the error, in the source's check order. -/
def batchIsValid (hasherSize : Nat) (b : Batch) : Bool × Option PErr :=
  if b.MaxChunks < 2 then (false, none)
  else if b.Reference.length ≠ hasherSize then (false, some PErr.incompatibleReference)
  else if b.Data.length ≠ 1 then (false, none)
  else (true, none)

/-- Embeds `trieNodeChunksProcessor.processCheckRequest` (lines 126–151): the work
done by the single consumer for one enqueued check request.  The processor
accesses `Data[0]`; requests are only enqueued for batches with exactly one
data buffer, and the embedding totalizes the access with `getD`. -/
def processCheckRequest (cache : ChunksCache) (b : Batch) :
    ChunksCache × CheckedChunkResult :=
  let chunkObject : Chunk :=
    match cacheGet cache b.Reference with
    | some c => c
    | none => NewChunk b.MaxChunks
  let chunkData := chunkObject.Put b.ChunkIndex (b.Data.getD 0 [])
  let buff := chunkData.TryAssembleAllChunks
  let haveAllChunks := decide (0 < buff.length)
  let newCache :=
    if 0 < buff.length then cacheRemove cache b.Reference
    else cachePut cache b.Reference chunkData
  (newCache, { IsChunk := true, HaveAllChunks := haveAllChunks, CompleteBuffer := buff })

/-- Embeds `trieNodeChunksProcessor.CheckBatch` (lines 104–124): validate, and when
processable hand the request to the consumer (here: run `processCheckRequest`
on the current cache) and return its reply with a nil error; otherwise return
the not-a-chunk result together with the validity error. -/
def CheckBatch (hasherSize : Nat) (cache : ChunksCache) (b : Batch) :
    ChunksCache × CheckedChunkResult × Option PErr :=
  let v := batchIsValid hasherSize b
  if v.1 then
    let r := processCheckRequest cache b
    (r.1, r.2, none)
  else
    (cache, { IsChunk := false, HaveAllChunks := false, CompleteBuffer := [] }, v.2)

/-- A recorded `RequestHandler.RequestTrieNode(shardID, hash, topic,
chunkIndex)` invocation. -/
structure TrieNodeRequest where
  shardID : Nat
  hash : Bytes
  topic : String
  chunkIndex : Nat
  deriving DecidableEq, Repr

/-- Embeds `trieNodeChunksProcessor.requestMissingForReference` (lines 181–203),
without a cancellation in flight: the requests issued for one reference. -/
def requestMissingForReference (shardID : Nat) (topic : String)
    (cache : ChunksCache) (reference : Bytes) : List TrieNodeRequest :=
  match cacheGet cache reference with
  | none => []
  | some chunkData =>
    chunkData.GetAllMissingChunkIndexes.map
      (fun i => { shardID := shardID, hash := reference, topic := topic, chunkIndex := i })

/-- Embeds `trieNodeChunksProcessor.doRequests` (lines 167–179), without a
cancellation in flight: for every cached reference, issue the requests for
its missing chunk indices. -/
def doRequests (shardID : Nat) (topic : String) (cache : ChunksCache) :
    List TrieNodeRequest :=
  (cacheKeys cache).flatMap (requestMissingForReference shardID topic cache)

/-- Sequential runner for a list of `CheckBatch` calls under one processor:
threads the cache and records each reply. -/
def runCheckBatches (hasherSize : Nat) (cache : ChunksCache) :
    List Batch → ChunksCache × List CheckedChunkResult
  | [] => (cache, [])
  | b :: rest =>
    ((runCheckBatches hasherSize (CheckBatch hasherSize cache b).1 rest).1,
     (CheckBatch hasherSize cache b).2.1 ::
       (runCheckBatches hasherSize (CheckBatch hasherSize cache b).1 rest).2)

/-- The slab state of a reference while the indices in `rem` are still
missing: slot `i` holds payload `p i` exactly when `i ∉ rem`. -/
def chunkFor (n : Nat) (p : Nat → Bytes) (rem : List Nat) : Chunk :=
  { maxChunks := n
    slots := (List.range n).map (fun i => if i ∈ rem then none else some (p i)) }

/-- The `CheckBatch` submission of chunk `i` of a reference split into `n`
chunks with payloads `p`. -/
def mkChunkBatch (ref : Bytes) (n : Nat) (p : Nat → Bytes) (i : Nat) : Batch :=
  { Reference := ref, ChunkIndex := i, MaxChunks := n, Data := [p i] }

/-! ## STEE (spec §4.3–§4.6)

Modelled from the spec: the `scheduledTxsExecution.go` implementation is not
among the sources (only `scheduledTxsExecution_test.go` is); the definitions
below follow spec §4.3–§4.6 and the behaviours the test file pins down.
Collaborators (transaction processor, shard coordinator, storer, marshaller)
are passed as explicit function arguments. -/

/-- The payload of a non-nil transaction handler: a nonce plus sender and
receiver addresses (the fields the cores inspect). -/
structure TxData where
  nonce : Nat
  sndAddr : Bytes
  rcvAddr : Bytes
  deriving DecidableEq, Repr

/-- A `data.TransactionHandler` value; `none` models a nil handler. -/
abbrev TxHandler := Option TxData

/-- The closed `block.Type` enumeration (the codes the cores distinguish,
plus a catch-all for the remaining numeric codes). -/
inductive BlockType where
  | txBlock
  | stateBlock
  | peerBlock
  | smartContractResultBlock
  | invalidBlock
  | receiptBlock
  | rewardsBlock
  | otherBlock (code : Nat)
  deriving DecidableEq, Repr

/-- The `scheduled.GasAndFees` tuple. -/
structure GasAndFees where
  accumulatedFees : Int
  developerFees : Int
  gasProvided : Nat
  gasPenalized : Nat
  gasRefunded : Nat
  deriving DecidableEq, Repr

/-- A mini block, kept opaque except for its block type. -/
structure MiniBlock where
  mbType : BlockType
  deriving DecidableEq, Repr

/-- An intermediate-transaction map for one block type:
`hash → TransactionHandler`, embedded as an association list. -/
abbrev TxHandlerMap := List (Bytes × TxData)

/-- The scheduled intermediate map (SIM): per block type, the ordered
sequence of new intermediate transactions, kept with their hashes. -/
abbrev ScheduledIntermediateMap := List (BlockType × TxHandlerMap)

/-- Modelled from the spec: the state owned by the scheduled-transactions
execution engine — the ordered scheduled list, the hash index, the SIM and
the snapshot fields (§3, Ownership). -/
structure ScheduledTxsExecutionState where
  scheduledTxs : List TxHandler
  mapScheduledTxs : List (Bytes × TxHandler)
  mapScheduledIntermediateTxs : ScheduledIntermediateMap
  scheduledRootHash : Bytes
  scheduledGasAndFees : GasAndFees
  scheduledMiniBlocks : Option (List MiniBlock)
  deriving DecidableEq, Repr

/-- Modelled from the spec: `IsScheduledTx` is an index lookup (§4.3). -/
def IsScheduledTx (s : ScheduledTxsExecutionState) (txHash : Bytes) : Bool :=
  (assocGet s.mapScheduledTxs txHash).isSome

/-- Modelled from the spec: `AddScheduledTx` inserts only if the hash is
absent from the index, preserving append order, and reports whether it
inserted (§4.3). -/
def AddScheduledTx (s : ScheduledTxsExecutionState) (txHash : Bytes)
    (tx : TxHandler) : Bool × ScheduledTxsExecutionState :=
  if (assocGet s.mapScheduledTxs txHash).isSome then (false, s)
  else
    (true, { s with
      scheduledTxs := s.scheduledTxs ++ [tx]
      mapScheduledTxs := s.mapScheduledTxs ++ [(txHash, tx)] })

/-- Modelled from the spec: `Init` clears the list and the index (§4.3). -/
def InitScheduled (s : ScheduledTxsExecutionState) : ScheduledTxsExecutionState :=
  { s with scheduledTxs := [], mapScheduledTxs := [] }

/-- A transaction-processor collaborator:
`ProcessTransaction(tx) -> (ReturnCode, error)` (§6). -/
abbrev TxProcessor := TxData → Nat × Option PErr

/-- Modelled from the spec: the single-transaction dispatch; a nil payload
yields `WrongTypeAssertion`, otherwise the processor error is returned raw
(§4.4; test `executeShouldWork` observes the raw error). -/
def executeOne (proc : TxProcessor) (txHandler : TxHandler) : Option PErr :=
  match txHandler with
  | none => some PErr.wrongTypeAssertion
  | some t => (proc t).2

/-- Modelled from the spec: the driver-boundary error classification — an
error equal to `FailedTransaction` is treated as success, any other error is
surfaced unchanged (§4.4, §7). -/
def classifyExecError (e : Option PErr) : Option PErr :=
  match e with
  | some pe => if pe = PErr.failedTransaction then none else some pe
  | none => none

/-- Modelled from the spec: `Execute(hash)` fails `MissingTransaction` on an
unknown hash, else executes the stored handler and applies the
classification rule (§4.4). -/
def Execute (proc : TxProcessor) (s : ScheduledTxsExecutionState)
    (txHash : Bytes) : Option PErr :=
  match assocGet s.mapScheduledTxs txHash with
  | none => some PErr.missingTransaction
  | some txHandler => classifyExecError (executeOne proc txHandler)

/-- The `haveTime` closure, embedded as the sequence of the durations it
returns: call number `k` yields `haveTime k` nanoseconds. -/
abbrev HaveTime := Nat → Int

/-- Modelled from the spec: the `ExecuteAll` iteration — before each
transaction evaluate `haveTime`; when it is ≤ 0 stop with `TimeIsOut`;
execute, classify, stop on a surfaced error (§4.4).  The second component
instruments the run with the handlers whose execution was attempted. -/
def executeAllLoop (proc : TxProcessor) (haveTime : HaveTime) :
    List TxHandler → Nat → Option PErr × List TxHandler
  | [], _ => (none, [])
  | tx :: rest, callIdx =>
    if haveTime callIdx ≤ 0 then (some PErr.timeIsOut, [])
    else
      match classifyExecError (executeOne proc tx) with
      | some e => (some e, [tx])
      | none =>
        let r := executeAllLoop proc haveTime rest (callIdx + 1)
        (r.1, tx :: r.2)

/-- Modelled from the spec: `ExecuteAll(haveTime)` — `NilHaveTimeHandler`
when the closure is absent, else iterate the scheduled list in insertion
order (§4.4).  Returns the error (`none` on success) and the instrumented
list of attempted handlers. -/
def ExecuteAll (proc : TxProcessor) (s : ScheduledTxsExecutionState)
    (haveTime : Option HaveTime) : Option PErr × List TxHandler :=
  match haveTime with
  | none => (some PErr.nilHaveTimeHandler, [])
  | some ht => executeAllLoop proc ht s.scheduledTxs 0

/-- A shard-coordinator collaborator: `SameShard(sender, receiver)` (§6). -/
abbrev SameShard := Bytes → Bytes → Bool

/-- Whether the block type is subject to the shard-locality filter (§4.5). -/
def isSCROrReceiptBlock (bt : BlockType) : Bool :=
  bt = BlockType.smartContractResultBlock || bt = BlockType.receiptBlock

/-- Modelled from the spec: `getAllIntermediateTxsAfterScheduledExecution` —
keep the after-map entries whose hash is new w.r.t. the before-map, dropping
intra-shard SCRs and receipts (§4.5; pinned by the test of the same name). -/
def getAllIntermediateTxsAfterScheduledExecution (sameShard : SameShard)
    (allTxsBefore : TxHandlerMap) (allTxsAfter : TxHandlerMap)
    (blockType : BlockType) : TxHandlerMap :=
  allTxsAfter.filterMap fun p =>
    if (assocGet allTxsBefore p.1).isSome then none
    else if isSCROrReceiptBlock blockType && sameShard p.2.sndAddr p.2.rcvAddr then none
    else some p

/-- An intermediate-transaction map: `BlockType → (hash → handler)`. -/
abbrev IntermediateTxMap := List (BlockType × TxHandlerMap)

/-- Modelled from the spec: `ComputeScheduledIntermediateTxs` replaces the
SIM with the per-block-type new handlers, skipping block types that
contribute none; a missing before-entry is the empty map (§4.5). -/
def ComputeScheduledIntermediateTxs (sameShard : SameShard)
    (s : ScheduledTxsExecutionState) (before after : IntermediateTxMap) :
    ScheduledTxsExecutionState :=
  { s with mapScheduledIntermediateTxs :=
      after.filterMap fun p =>
        let newTxs := getAllIntermediateTxsAfterScheduledExecution sameShard
          ((assocGet before p.1).getD []) p.2 p.1
        if newTxs.length = 0 then none else some (p.1, newTxs) }

/-! ### Snapshot / rollback (spec §4.6) -/

/-- The persisted wire shape `ScheduledSCRs` (§6): `miniBlocks = none`
models an absent/nil mini-block slice in the stored blob. -/
structure ScheduledSCRs where
  rootHash : Bytes
  scrs : ScheduledIntermediateMap
  gasAndFees : GasAndFees
  miniBlocks : Option (List MiniBlock)
  deriving DecidableEq, Repr

/-- The `process.ScheduledInfo` shape: `miniBlocks = none` models a nil slice,
`some []` the normalized empty slice. -/
structure ScheduledInfo where
  rootHash : Bytes
  intermediateTxs : ScheduledIntermediateMap
  gasAndFees : GasAndFees
  miniBlocks : Option (List MiniBlock)
  deriving DecidableEq, Repr

/-- A storer collaborator: `Get(key) -> (bytes, error)` (§6). -/
abbrev StorerGet := Bytes → Except PErr Bytes

/-- An unmarshal collaborator for the stored `ScheduledSCRs` blob (§6). -/
abbrev UnmarshalSSCR := Bytes → Except PErr ScheduledSCRs

/-- Modelled from the spec: `getScheduledInfoForHeader` reads the stored
blob, unmarshals it and yields the parsed `ScheduledInfo` without mutation;
an absent mini-block slice is normalized to the empty slice, not nil (§4.6);
storage and unmarshal errors are returned. -/
def getScheduledInfoForHeader (storerGet : StorerGet)
    (unmarshalSSCR : UnmarshalSSCR) (headerHash : Bytes) :
    Except PErr ScheduledInfo :=
  match storerGet headerHash with
  | Except.error e => Except.error e
  | Except.ok buff =>
    match unmarshalSSCR buff with
    | Except.error e => Except.error e
    | Except.ok sscrs =>
      Except.ok { rootHash := sscrs.rootHash
                  intermediateTxs := sscrs.scrs
                  gasAndFees := sscrs.gasAndFees
                  miniBlocks := some (sscrs.miniBlocks.getD []) }

/-- Modelled from the spec: install a recovered `ScheduledInfo` into the
live fields (§4.6). -/
def SetScheduledInfo (s : ScheduledTxsExecutionState) (info : ScheduledInfo) :
    ScheduledTxsExecutionState :=
  { s with
    scheduledRootHash := info.rootHash
    mapScheduledIntermediateTxs := info.intermediateTxs
    scheduledGasAndFees := info.gasAndFees
    scheduledMiniBlocks := info.miniBlocks }

/-- Modelled from the spec: `RollBackToBlock` reads the stored scheduled
info for the header and installs it; storage and unmarshal errors are
returned (§4.6). -/
def RollBackToBlock (storerGet : StorerGet) (unmarshalSSCR : UnmarshalSSCR)
    (s : ScheduledTxsExecutionState) (headerHash : Bytes) :
    Except PErr ScheduledTxsExecutionState :=
  match getScheduledInfoForHeader storerGet unmarshalSSCR headerHash with
  | Except.error e => Except.error e
  | Except.ok info => Except.ok (SetScheduledInfo s info)

/-! ## Helper lemmas -/

/-- The `CheckBatch` result unfolded into the source's validity-check order. -/
lemma checkBatch_eq (hasherSize : Nat) (cache : ChunksCache) (b : Batch) :
    CheckBatch hasherSize cache b =
      if b.MaxChunks < 2 then
        (cache, { IsChunk := false, HaveAllChunks := false, CompleteBuffer := [] }, none)
      else if b.Reference.length ≠ hasherSize then
        (cache, { IsChunk := false, HaveAllChunks := false, CompleteBuffer := [] },
          some PErr.incompatibleReference)
      else if b.Data.length ≠ 1 then
        (cache, { IsChunk := false, HaveAllChunks := false, CompleteBuffer := [] }, none)
      else
        ((processCheckRequest cache b).1, (processCheckRequest cache b).2, none) := by
  unfold CheckBatch batchIsValid
  by_cases h1 : b.MaxChunks < 2
  · simp [h1]
  · by_cases h2 : b.Reference.length ≠ hasherSize
    · simp [h1, h2]
    · by_cases h3 : b.Data.length ≠ 1
      · simp [h1, h2, h3]
      · simp [h1, h2, h3]

/-- An association-list hit comes from a member of the list. -/
lemma assocGet_mem {κ α : Type} [DecidableEq κ] :
    ∀ (l : List (κ × α)) (k : κ) (v : α), assocGet l k = some v → (k, v) ∈ l := by
  intro l
  induction l with
  | nil => intro k v hyp; simp [assocGet] at hyp
  | cons p rest ih =>
    intro k v hyp
    obtain ⟨pk, pv⟩ := p
    by_cases hk : pk = k
    · rw [assocGet, if_pos hk] at hyp
      subst hk
      injection hyp with hv
      subst hv
      exact List.mem_cons_self _ _
    · rw [assocGet, if_neg hk] at hyp
      exact List.mem_cons_of_mem _ (ih k v hyp)

/-- The flattening of all-empty buffers is empty. -/
lemma flatten_getD_len_zero :
    ∀ (slots : List (Option Bytes)), (∀ sl ∈ slots, (sl.getD []).length = 0) →
      ((slots.map (fun s => s.getD [])).flatten).length = 0 := by
  intro slots
  induction slots with
  | nil => intro _; simp
  | cons x xs ih =>
    intro hyp
    simp only [List.map_cons, List.flatten_cons, List.length_append]
    have hx := hyp x (List.mem_cons_self _ _)
    have hxs := ih (fun sl hsl => hyp sl (List.mem_cons_of_mem _ hsl))
    omega

/-- A slab whose stored buffers are all empty assembles to an empty buffer. -/
lemma tryAssemble_all_empty (c : Chunk)
    (hyp : ∀ sl ∈ c.slots, (sl.getD []).length = 0) :
    c.TryAssembleAllChunks.length = 0 := by
  unfold Chunk.TryAssembleAllChunks
  split
  · exact flatten_getD_len_zero c.slots hyp
  · simp

/-- Putting an empty buffer keeps all stored buffers empty. -/
lemma put_preserves_all_empty (c : Chunk) (i : Nat) (buf : Bytes)
    (hbuf : buf.length = 0) (hyp : ∀ sl ∈ c.slots, (sl.getD []).length = 0) :
    ∀ sl ∈ (c.Put i buf).slots, (sl.getD []).length = 0 := by
  unfold Chunk.Put
  split
  · intro sl hsl
    rcases List.mem_or_eq_of_mem_set hsl with hmem | heq
    · exact hyp sl hmem
    · subst heq
      simpa using hbuf
  · exact hyp

/-- Under the empty-payload conditions the consumer never reports a
complete slab. -/
lemma processCheckRequest_all_empty (cache : ChunksCache) (b : Batch)
    (hcache : ∀ kv ∈ cache, ∀ sl ∈ kv.2.slots, (sl.getD []).length = 0)
    (hdata : ∀ d ∈ b.Data, d.length = 0) :
    (processCheckRequest cache b).2.HaveAllChunks = false := by
  unfold processCheckRequest
  have hpayload : (b.Data.getD 0 []).length = 0 := by
    cases hd : b.Data with
    | nil => simp
    | cons d rest =>
      have := hdata d (by rw [hd]; exact List.mem_cons_self _ _)
      simpa using this
  have hobj : ∀ sl ∈ (match cacheGet cache b.Reference with
      | some c => c
      | none => NewChunk b.MaxChunks).slots, (sl.getD []).length = 0 := by
    cases hget : cacheGet cache b.Reference with
    | some c =>
      intro sl hsl
      exact hcache (b.Reference, c) (assocGet_mem cache b.Reference c hget) sl hsl
    | none =>
      intro sl hsl
      simp only [NewChunk] at hsl
      rw [List.eq_of_mem_replicate hsl]
      simp
  have hassembled := tryAssemble_all_empty _ (put_preserves_all_empty _ b.ChunkIndex _ hpayload hobj)
  simp only [hassembled]
  simp

/-- The missing-index list of a slab is strictly ascending. -/
lemma missingIndexes_sorted (c : Chunk) :
    List.Pairwise (· < ·) c.GetAllMissingChunkIndexes :=
  List.Pairwise.sublist (List.filter_sublist _) (List.pairwise_lt_range _)

/-- The missing-index list of a slab holds exactly the empty slot indices. -/
lemma missingIndexes_mem (c : Chunk) :
    ∀ i, i ∈ c.GetAllMissingChunkIndexes
      ↔ i < c.slots.length ∧ c.slots.getD i (some []) = none := by
  intro i
  unfold Chunk.GetAllMissingChunkIndexes
  simp [List.mem_filter, Option.isNone_iff_eq_none]

/-- When time stays positive and every execution classifies to success, the
loop attempts every transaction and returns no error. -/
lemma executeAllLoop_complete (proc : TxProcessor) (ht : HaveTime) :
    ∀ (txs : List TxHandler) (idx : Nat),
      (∀ j, j < txs.length → 0 < ht (idx + j)
        ∧ classifyExecError (executeOne proc (txs.getD j none)) = none) →
      executeAllLoop proc ht txs idx = (none, txs) := by
  intro txs
  induction txs with
  | nil => intro idx _; rfl
  | cons tx rest ih =>
    intro idx hyp
    have h0 := hyp 0 (by simp)
    simp only [List.getD_cons_zero, Nat.add_zero] at h0
    rw [executeAllLoop, if_neg (by omega), h0.2]
    have hr := ih (idx + 1) ?_
    · simp [hr]
    · intro j hj
      have hstep := hyp (j + 1) (by simpa using Nat.succ_lt_succ hj)
      have hidx : idx + (j + 1) = idx + 1 + j := by omega
      simpa [hidx] using hstep

/-- When the first `k` steps succeed with positive time and the `k`-th time
check fails, the loop stops with `TimeIsOut` having attempted exactly the
first `k` transactions. -/
lemma executeAllLoop_timeout (proc : TxProcessor) (ht : HaveTime) :
    ∀ (txs : List TxHandler) (idx k : Nat),
      k < txs.length →
      (∀ j, j < k → 0 < ht (idx + j)
        ∧ classifyExecError (executeOne proc (txs.getD j none)) = none) →
      ht (idx + k) ≤ 0 →
      executeAllLoop proc ht txs idx = (some PErr.timeIsOut, txs.take k) := by
  intro txs
  induction txs with
  | nil => intro idx k hk _ _; simp at hk
  | cons tx rest ih =>
    intro idx k hk hpre hk0
    cases k with
    | zero =>
      rw [executeAllLoop, if_pos (by simpa using hk0)]
      simp
    | succ k =>
      have h0 := hpre 0 (Nat.succ_pos k)
      simp only [List.getD_cons_zero, Nat.add_zero] at h0
      rw [executeAllLoop, if_neg (by omega), h0.2]
      have hr := ih (idx + 1) k (by simpa using hk) ?_ ?_
      · simp [hr]
      · intro j hj
        have hstep := hpre (j + 1) (Nat.succ_lt_succ hj)
        have hidx : idx + (j + 1) = idx + 1 + j := by omega
        simpa [hidx] using hstep
      · have hidx : idx + (k + 1) = idx + 1 + k := by omega
        rw [← hidx]
        exact hk0

/-- When the first `k` steps succeed with positive time and step `k`, still
within time, classifies to a surfaced error, the loop stops with that error
having attempted exactly the first `k + 1` transactions. -/
lemma executeAllLoop_error (proc : TxProcessor) (ht : HaveTime) (e : PErr) :
    ∀ (txs : List TxHandler) (idx k : Nat),
      k < txs.length →
      (∀ j, j < k → 0 < ht (idx + j)
        ∧ classifyExecError (executeOne proc (txs.getD j none)) = none) →
      0 < ht (idx + k) →
      classifyExecError (executeOne proc (txs.getD k none)) = some e →
      executeAllLoop proc ht txs idx = (some e, txs.take (k + 1)) := by
  intro txs
  induction txs with
  | nil => intro idx k hk _ _ _; simp at hk
  | cons tx rest ih =>
    intro idx k hk hpre hkpos hkerr
    cases k with
    | zero =>
      simp only [List.getD_cons_zero, Nat.add_zero] at hkerr hkpos
      rw [executeAllLoop, if_neg (by omega), hkerr]
      simp
    | succ k =>
      have h0 := hpre 0 (Nat.succ_pos k)
      simp only [List.getD_cons_zero, Nat.add_zero] at h0
      rw [executeAllLoop, if_neg (by omega), h0.2]
      have hr := ih (idx + 1) k (by simpa using hk) ?_ ?_ ?_
      · simp [hr]
      · intro j hj
        have hstep := hpre (j + 1) (Nat.succ_lt_succ hj)
        have hidx : idx + (j + 1) = idx + 1 + j := by omega
        simpa [hidx] using hstep
      · have hidx : idx + (k + 1) = idx + 1 + k := by omega
        rw [← hidx]
        exact hkpos
      · simpa using hkerr

/-! ## Claims -/

/-- C2 counterexample: a batch with `MaxChunks = 2`, an empty `Data` slice
and a reference whose length differs from the hasher size (here 2) makes
`CheckBatch` return the `IncompatibleReference` error, although the claim
asserts a nil error whenever `len(Data) ≠ 1`. -/
theorem checkBatch_error_routing_counterexample :
    (CheckBatch 2 [] { Reference := [], ChunkIndex := 0, MaxChunks := 2, Data := [] }).2.2
      = some PErr.incompatibleReference
    ∧ ({ Reference := [], ChunkIndex := 0, MaxChunks := 2, Data := [] } : Batch).Data.length ≠ 1
    ∧ ¬ (CheckBatch 2 [] { Reference := [], ChunkIndex := 0, MaxChunks := 2, Data := [] }).2.2
      = none := by
  refine ⟨rfl, by decide, by decide⟩

/-- C2 (amended): `CheckBatch` applies the source's check order — a nil
error and the not-a-chunk result when `MaxChunks < 2`; the
`IncompatibleReference` error when `MaxChunks ≥ 2` and the reference length
differs from the hasher size (even when `len(Data) ≠ 1`); a nil error and
the not-a-chunk result when `MaxChunks ≥ 2`, the reference length matches
and `len(Data) ≠ 1`; and it hands the request to the consumer exactly when
all three conditions hold. -/
theorem checkBatch_validity_characterization :
    ∀ (hasherSize : Nat) (cache : ChunksCache) (b : Batch),
      CheckBatch hasherSize cache b =
        if b.MaxChunks < 2 then
          (cache, { IsChunk := false, HaveAllChunks := false, CompleteBuffer := [] }, none)
        else if b.Reference.length ≠ hasherSize then
          (cache, { IsChunk := false, HaveAllChunks := false, CompleteBuffer := [] },
            some PErr.incompatibleReference)
        else if b.Data.length ≠ 1 then
          (cache, { IsChunk := false, HaveAllChunks := false, CompleteBuffer := [] }, none)
        else
          ((processCheckRequest cache b).1, (processCheckRequest cache b).2, none) :=
  checkBatch_eq

/-- C6: `AddScheduledTx` returns true and appends the transaction to both
the list and the index exactly when the hash was absent beforehand; when the
hash is already scheduled it returns false and leaves the state unchanged,
regardless of the payload supplied. -/
theorem addScheduledTx_insert_iff_absent :
    ∀ (s : ScheduledTxsExecutionState) (txHash : Bytes) (tx : TxHandler),
      (AddScheduledTx s txHash tx).1 = !(IsScheduledTx s txHash)
      ∧ (AddScheduledTx s txHash tx).2 =
          (if IsScheduledTx s txHash then s
           else { s with scheduledTxs := s.scheduledTxs ++ [tx],
                         mapScheduledTxs := s.mapScheduledTxs ++ [(txHash, tx)] }) := by
  intro s txHash tx
  unfold AddScheduledTx IsScheduledTx
  by_cases hmem : (assocGet s.mapScheduledTxs txHash).isSome <;> simp [hmem]

/-- C9: the intermediate-transaction classifier is a pure function of the
before/after maps and the shard coordinator — the SIM it produces does not
depend on any other part of the engine state, and recomputing with the same
inputs reproduces the same SIM, order included. -/
theorem computeScheduledIntermediateTxs_deterministic :
    ∀ (sameShard : SameShard) (s1 s2 : ScheduledTxsExecutionState)
      (before after : IntermediateTxMap),
      (ComputeScheduledIntermediateTxs sameShard s1 before after).mapScheduledIntermediateTxs
        = (ComputeScheduledIntermediateTxs sameShard s2 before after).mapScheduledIntermediateTxs
      ∧ ComputeScheduledIntermediateTxs sameShard
          (ComputeScheduledIntermediateTxs sameShard s1 before after) before after
        = ComputeScheduledIntermediateTxs sameShard s1 before after := by
  intro sameShard s1 s2 before after
  exact ⟨rfl, rfl⟩

/-- C10: a check-request reply carries `HaveAllChunks = true` exactly when
the assembled buffer is non-empty; `CheckBatch` never returns
`HaveAllChunks = true` with an empty buffer; and when every cached buffer
and every incoming payload is an empty byte string, the slab is never
reported complete. -/
theorem ctrp_complete_iff_nonempty_buffer :
    ∀ (hasherSize : Nat) (cache : ChunksCache) (b : Batch),
      ((processCheckRequest cache b).2.HaveAllChunks = true
        ↔ 0 < (processCheckRequest cache b).2.CompleteBuffer.length)
      ∧ ((CheckBatch hasherSize cache b).2.1.HaveAllChunks = true
        ↔ 0 < (CheckBatch hasherSize cache b).2.1.CompleteBuffer.length)
      ∧ ((∀ kv ∈ cache, ∀ sl ∈ kv.2.slots, (sl.getD []).length = 0) →
         (∀ d ∈ b.Data, d.length = 0) →
         (CheckBatch hasherSize cache b).2.1.HaveAllChunks = false) := by
  intro hasherSize cache b
  have hproc : (processCheckRequest cache b).2.HaveAllChunks = true
      ↔ 0 < (processCheckRequest cache b).2.CompleteBuffer.length := by
    unfold processCheckRequest
    simp
  refine ⟨hproc, ?_, ?_⟩
  · rw [checkBatch_eq]
    split
    · simp
    · split
      · simp
      · split
        · simp
        · exact hproc
  · intro hcache hdata
    rw [checkBatch_eq]
    split
    · rfl
    · split
      · rfl
      · split
        · rfl
        · exact processCheckRequest_all_empty cache b hcache hdata

/-- C10 witness: a concrete full slab of empty payloads is not reported
complete by the final `CheckBatch` call. -/
theorem ctrp_complete_iff_nonempty_buffer_witness :
    (CheckBatch 1 [([9], { maxChunks := 2, slots := [some [], none] })]
      { Reference := [9], ChunkIndex := 1, MaxChunks := 2, Data := [[]] }).2.1.HaveAllChunks
      = false := by
  exact (ctrp_complete_iff_nonempty_buffer 1 _ _).2.2 (by decide) (by decide)

/-- C8: without a cancellation in flight, one tick enumerates the cached
references and, for each reference whose slab is cached, issues exactly one
`RequestTrieNode` per missing chunk index, carrying the configured shard ID
and topic; the missing indices are exactly the empty slot indices, listed in
strictly ascending order. -/
theorem doRequests_missing_ascending :
    ∀ (shardID : Nat) (topic : String) (cache : ChunksCache) (reference : Bytes) (c : Chunk),
      doRequests shardID topic cache
        = (cacheKeys cache).flatMap (requestMissingForReference shardID topic cache)
      ∧ (cacheGet cache reference = some c →
          requestMissingForReference shardID topic cache reference
            = c.GetAllMissingChunkIndexes.map
                (fun i => { shardID := shardID, hash := reference, topic := topic, chunkIndex := i }))
      ∧ List.Pairwise (· < ·) c.GetAllMissingChunkIndexes
      ∧ (∀ i, i ∈ c.GetAllMissingChunkIndexes
          ↔ i < c.slots.length ∧ c.slots.getD i (some []) = none) := by
  intro shardID topic cache reference c
  refine ⟨rfl, ?_, missingIndexes_sorted c, missingIndexes_mem c⟩
  intro hget
  simp [requestMissingForReference, hget]

/-- C8 witness: one cached reference missing indices 1 and 3 triggers
exactly the two requests, ascending. -/
theorem doRequests_missing_ascending_witness :
    requestMissingForReference 5 "trieNodes"
        [([9], { maxChunks := 4, slots := [some [7], none, some [8], none] })] [9]
      = [{ shardID := 5, hash := [9], topic := "trieNodes", chunkIndex := 1 },
         { shardID := 5, hash := [9], topic := "trieNodes", chunkIndex := 3 }] := by
  have h := (doRequests_missing_ascending 5 "trieNodes"
    [([9], { maxChunks := 4, slots := [some [7], none, some [8], none] })] [9]
    { maxChunks := 4, slots := [some [7], none, some [8], none] }).2.1 (by rfl)
  rw [h]
  rfl

/-- C5: in the intermediate-transaction classifier, a handler new in the
after-map is dropped when the block type is `SmartContractResultBlock` or
`ReceiptBlock` and the shard coordinator reports sender and receiver in the
same shard — and it is then also absent from the resulting SIM — while for
every other block type the handler is kept regardless of the shard-locality
result. -/
theorem intermediateTxs_shard_locality_filter :
    ∀ (sameShard : SameShard) (s : ScheduledTxsExecutionState)
      (beforeMap afterMap : TxHandlerMap) (bt : BlockType) (h : Bytes) (td : TxData),
      (h, td) ∈ afterMap →
      assocGet beforeMap h = none →
      (((bt = BlockType.smartContractResultBlock ∨ bt = BlockType.receiptBlock) →
          sameShard td.sndAddr td.rcvAddr = true →
          ((h, td) ∉ getAllIntermediateTxsAfterScheduledExecution sameShard beforeMap afterMap bt
           ∧ ∀ l, (bt, l) ∈ (ComputeScheduledIntermediateTxs sameShard s
                [(bt, beforeMap)] [(bt, afterMap)]).mapScheduledIntermediateTxs →
              (h, td) ∉ l))
       ∧ ((bt ≠ BlockType.smartContractResultBlock ∧ bt ≠ BlockType.receiptBlock) →
          (h, td) ∈ getAllIntermediateTxsAfterScheduledExecution sameShard beforeMap afterMap bt)) := by
  intro sameShard s beforeMap afterMap bt h td hafter hbefore
  constructor
  · intro hbt hss
    have hscr : isSCROrReceiptBlock bt = true := by
      rcases hbt with hbt | hbt <;> simp [isSCROrReceiptBlock, hbt]
    have hdrop : (h, td) ∉ getAllIntermediateTxsAfterScheduledExecution sameShard beforeMap afterMap bt := by
      intro hmem
      rw [getAllIntermediateTxsAfterScheduledExecution, List.mem_filterMap] at hmem
      obtain ⟨a, _, hfa⟩ := hmem
      by_cases h1 : (assocGet beforeMap a.1).isSome
      · simp [h1] at hfa
      · by_cases h2 : sameShard a.2.sndAddr a.2.rcvAddr
        · simp [h1, hscr, h2] at hfa
        · simp [h1, hscr, h2] at hfa
          rw [hfa] at h2
          exact h2 hss
    refine ⟨hdrop, ?_⟩
    intro l hl
    simp only [ComputeScheduledIntermediateTxs, List.filterMap_cons, List.filterMap_nil] at hl
    split at hl
    · simp at hl
    · rename_i b heq
      simp only [List.mem_singleton] at hl
      split at heq
      · exact absurd heq (by simp)
      · injection heq with heq
        rw [← heq] at hl
        have hinner : (assocGet [(bt, beforeMap)] bt).getD [] = beforeMap := by
          simp [assocGet]
        rw [hinner] at hl
        simp only [Prod.mk.injEq] at hl
        rw [hl.2]
        exact hdrop
  · intro hne
    rw [getAllIntermediateTxsAfterScheduledExecution, List.mem_filterMap]
    refine ⟨(h, td), hafter, ?_⟩
    have hscr : isSCROrReceiptBlock bt = false := by
      simp [isSCROrReceiptBlock, hne.1, hne.2]
    simp [hbefore, hscr]

/-- C5 witness: with a same-shard coordinator, a new handler is dropped for
`SmartContractResultBlock` and kept for `TxBlock`. -/
theorem intermediateTxs_shard_locality_filter_witness :
    (([3], { nonce := 3, sndAddr := [1], rcvAddr := [1] }) ∉
      getAllIntermediateTxsAfterScheduledExecution (fun _ _ => true) []
        [([3], { nonce := 3, sndAddr := [1], rcvAddr := [1] })]
        BlockType.smartContractResultBlock)
    ∧ (([3], { nonce := 3, sndAddr := [1], rcvAddr := [1] }) ∈
      getAllIntermediateTxsAfterScheduledExecution (fun _ _ => true) []
        [([3], { nonce := 3, sndAddr := [1], rcvAddr := [1] })]
        BlockType.txBlock) := by
  constructor
  · exact ((intermediateTxs_shard_locality_filter (fun _ _ => true)
      { scheduledTxs := [], mapScheduledTxs := [], mapScheduledIntermediateTxs := [],
        scheduledRootHash := [], scheduledGasAndFees := ⟨0, 0, 0, 0, 0⟩,
        scheduledMiniBlocks := none }
      [] [([3], { nonce := 3, sndAddr := [1], rcvAddr := [1] })]
      BlockType.smartContractResultBlock [3] { nonce := 3, sndAddr := [1], rcvAddr := [1] }
      (by decide) rfl).1 (Or.inl rfl) rfl).1
  · exact (intermediateTxs_shard_locality_filter (fun _ _ => true)
      { scheduledTxs := [], mapScheduledTxs := [], mapScheduledIntermediateTxs := [],
        scheduledRootHash := [], scheduledGasAndFees := ⟨0, 0, 0, 0, 0⟩,
        scheduledMiniBlocks := none }
      [] [([3], { nonce := 3, sndAddr := [1], rcvAddr := [1] })]
      BlockType.txBlock [3] { nonce := 3, sndAddr := [1], rcvAddr := [1] }
      (by decide) rfl).2 (by simp)

/-- C3: a scheduled transaction whose processor error equals
`FailedTransaction` is treated as success — `Execute` returns nil, and
`ExecuteAll` (given time) attempts every transaction and returns nil when
each one ends in success or `FailedTransaction`; any other non-nil
processor error is returned to the caller unchanged, by `Execute` and by
`ExecuteAll` alike — for `ExecuteAll` at any position `k` of the scheduled
list, with exactly the first `k + 1` transactions attempted. -/
theorem execute_absorbs_failedTransaction :
    ∀ (proc : TxProcessor) (s : ScheduledTxsExecutionState) (txHash : Bytes)
      (td : TxData) (e : PErr) (ht : HaveTime),
      (assocGet s.mapScheduledTxs txHash = some (some td) →
        (((proc td).2 = some PErr.failedTransaction → Execute proc s txHash = none)
         ∧ ((proc td).2 = some e → e ≠ PErr.failedTransaction → Execute proc s txHash = some e)
         ∧ ((proc td).2 = none → Execute proc s txHash = none)))
      ∧ ((∀ j, j < s.scheduledTxs.length → 0 < ht j
            ∧ (∃ tdj, s.scheduledTxs.getD j none = some tdj
                ∧ ((proc tdj).2 = none ∨ (proc tdj).2 = some PErr.failedTransaction))) →
          ExecuteAll proc s (some ht) = (none, s.scheduledTxs))
      ∧ (∀ k, k < s.scheduledTxs.length →
          (∀ j, j < k → 0 < ht j
            ∧ classifyExecError (executeOne proc (s.scheduledTxs.getD j none)) = none) →
          0 < ht k →
          s.scheduledTxs.getD k none = some td →
          (proc td).2 = some e → e ≠ PErr.failedTransaction →
          ExecuteAll proc s (some ht) = (some e, s.scheduledTxs.take (k + 1))) := by
  intro proc s txHash td e ht
  refine ⟨?_, ?_, ?_⟩
  · intro hget
    rw [Execute, hget]
    refine ⟨?_, ?_, ?_⟩
    · intro hp
      simp [executeOne, classifyExecError, hp]
    · intro hp hne
      simp [executeOne, classifyExecError, hp, hne]
    · intro hp
      simp [executeOne, classifyExecError, hp]
  · intro hyp
    rw [ExecuteAll]
    apply executeAllLoop_complete
    intro j hj
    obtain ⟨hpos, tdj, hget, hproc⟩ := hyp j hj
    refine ⟨by simpa using hpos, ?_⟩
    rw [hget]
    rcases hproc with hp | hp <;> simp [executeOne, classifyExecError, hp]
  · intro k hk hpre hkpos hget hp hne
    rw [ExecuteAll]
    apply executeAllLoop_error proc ht e s.scheduledTxs 0 k hk
    · intro j hj
      simpa using hpre j hj
    · simpa using hkpos
    · rw [hget]
      simp [executeOne, classifyExecError, hp, hne]

/-- C3 witness: with a processor always failing with `FailedTransaction`,
`Execute` and `ExecuteAll` on one scheduled transaction both succeed; and
with a processor erroring only on the second of two scheduled transactions,
`ExecuteAll` surfaces that error unchanged, having attempted both. -/
theorem execute_absorbs_failedTransaction_witness :
    Execute (fun _ => (0, some PErr.failedTransaction))
        { scheduledTxs := [some { nonce := 0, sndAddr := [], rcvAddr := [] }],
          mapScheduledTxs := [([1], some { nonce := 0, sndAddr := [], rcvAddr := [] })],
          mapScheduledIntermediateTxs := [], scheduledRootHash := [],
          scheduledGasAndFees := ⟨0, 0, 0, 0, 0⟩, scheduledMiniBlocks := none } [1] = none
    ∧ ExecuteAll (fun _ => (0, some PErr.failedTransaction))
        { scheduledTxs := [some { nonce := 0, sndAddr := [], rcvAddr := [] }],
          mapScheduledTxs := [([1], some { nonce := 0, sndAddr := [], rcvAddr := [] })],
          mapScheduledIntermediateTxs := [], scheduledRootHash := [],
          scheduledGasAndFees := ⟨0, 0, 0, 0, 0⟩, scheduledMiniBlocks := none }
        (some fun _ => 100)
      = (none, [some { nonce := 0, sndAddr := [], rcvAddr := [] }])
    ∧ ExecuteAll (fun t => if t.nonce = 0 then (0, none) else (0, some (PErr.otherErr 7)))
        { scheduledTxs := [some { nonce := 0, sndAddr := [], rcvAddr := [] },
                           some { nonce := 1, sndAddr := [], rcvAddr := [] }],
          mapScheduledTxs := [([1], some { nonce := 0, sndAddr := [], rcvAddr := [] }),
                              ([2], some { nonce := 1, sndAddr := [], rcvAddr := [] })],
          mapScheduledIntermediateTxs := [], scheduledRootHash := [],
          scheduledGasAndFees := ⟨0, 0, 0, 0, 0⟩, scheduledMiniBlocks := none }
        (some fun _ => 100)
      = (some (PErr.otherErr 7),
         [some { nonce := 0, sndAddr := [], rcvAddr := [] },
          some { nonce := 1, sndAddr := [], rcvAddr := [] }]) := by
  refine ⟨?_, ?_, ?_⟩
  · exact ((execute_absorbs_failedTransaction (fun _ => (0, some PErr.failedTransaction))
      { scheduledTxs := [some { nonce := 0, sndAddr := [], rcvAddr := [] }],
        mapScheduledTxs := [([1], some { nonce := 0, sndAddr := [], rcvAddr := [] })],
        mapScheduledIntermediateTxs := [], scheduledRootHash := [],
        scheduledGasAndFees := ⟨0, 0, 0, 0, 0⟩, scheduledMiniBlocks := none }
      [1] { nonce := 0, sndAddr := [], rcvAddr := [] } PErr.timeIsOut
      (fun _ => 100)).1 rfl).1 rfl
  · exact (execute_absorbs_failedTransaction (fun _ => (0, some PErr.failedTransaction))
      { scheduledTxs := [some { nonce := 0, sndAddr := [], rcvAddr := [] }],
        mapScheduledTxs := [([1], some { nonce := 0, sndAddr := [], rcvAddr := [] })],
        mapScheduledIntermediateTxs := [], scheduledRootHash := [],
        scheduledGasAndFees := ⟨0, 0, 0, 0, 0⟩, scheduledMiniBlocks := none }
      [1] { nonce := 0, sndAddr := [], rcvAddr := [] } PErr.timeIsOut
      (fun _ => 100)).2.1
      (by
        intro j hj
        have hj0 : j = 0 := Nat.lt_one_iff.mp (by simpa using hj)
        subst hj0
        exact ⟨by norm_num, { nonce := 0, sndAddr := [], rcvAddr := [] }, rfl, Or.inr rfl⟩)
  · have h3 := (execute_absorbs_failedTransaction
      (fun t => if t.nonce = 0 then (0, none) else (0, some (PErr.otherErr 7)))
      { scheduledTxs := [some { nonce := 0, sndAddr := [], rcvAddr := [] },
                         some { nonce := 1, sndAddr := [], rcvAddr := [] }],
        mapScheduledTxs := [([1], some { nonce := 0, sndAddr := [], rcvAddr := [] }),
                            ([2], some { nonce := 1, sndAddr := [], rcvAddr := [] })],
        mapScheduledIntermediateTxs := [], scheduledRootHash := [],
        scheduledGasAndFees := ⟨0, 0, 0, 0, 0⟩, scheduledMiniBlocks := none }
      [2] { nonce := 1, sndAddr := [], rcvAddr := [] } (PErr.otherErr 7)
      (fun _ => 100)).2.2 1 (by norm_num)
      (by
        intro j hj
        have hj0 : j = 0 := Nat.lt_one_iff.mp hj
        subst hj0
        exact ⟨by norm_num, by decide⟩)
      (by norm_num) rfl rfl (by decide)
    simpa using h3

/-- C4: `ExecuteAll` returns `NilHaveTimeHandler` for an absent closure;
otherwise it walks the scheduled list in insertion order, checking
`haveTime` before each transaction — a non-positive value stops the run
with `TimeIsOut`, the processor untouched for that and all later
transactions — and returns nil when every transaction is attempted. -/
theorem executeAll_haveTime_gate :
    ∀ (proc : TxProcessor) (s : ScheduledTxsExecutionState) (ht : HaveTime) (k : Nat),
      ExecuteAll proc s none = (some PErr.nilHaveTimeHandler, [])
      ∧ (k < s.scheduledTxs.length →
         (∀ j, j < k → 0 < ht j
           ∧ classifyExecError (executeOne proc (s.scheduledTxs.getD j none)) = none) →
         ht k ≤ 0 →
         ExecuteAll proc s (some ht) = (some PErr.timeIsOut, s.scheduledTxs.take k))
      ∧ ((∀ j, j < s.scheduledTxs.length → 0 < ht j
           ∧ classifyExecError (executeOne proc (s.scheduledTxs.getD j none)) = none) →
         ExecuteAll proc s (some ht) = (none, s.scheduledTxs)) := by
  intro proc s ht k
  refine ⟨rfl, ?_, ?_⟩
  · intro hk hpre hk0
    rw [ExecuteAll]
    apply executeAllLoop_timeout proc ht s.scheduledTxs 0 k hk
    · intro j hj
      simpa using hpre j hj
    · simpa using hk0
  · intro hyp
    rw [ExecuteAll]
    apply executeAllLoop_complete
    intro j hj
    simpa using hyp j hj

/-- C4 witness: with a single scheduled transaction and a `haveTime` that
returns −1, `ExecuteAll` stops with `TimeIsOut` before attempting any
transaction; with an absent closure it returns `NilHaveTimeHandler`. -/
theorem executeAll_haveTime_gate_witness :
    ExecuteAll (fun _ => (0, none))
        { scheduledTxs := [some { nonce := 0, sndAddr := [], rcvAddr := [] }],
          mapScheduledTxs := [([1], some { nonce := 0, sndAddr := [], rcvAddr := [] })],
          mapScheduledIntermediateTxs := [], scheduledRootHash := [],
          scheduledGasAndFees := ⟨0, 0, 0, 0, 0⟩, scheduledMiniBlocks := none }
        (some fun _ => -1)
      = (some PErr.timeIsOut, []) := by
  have h := (executeAll_haveTime_gate (fun _ => (0, none))
    { scheduledTxs := [some { nonce := 0, sndAddr := [], rcvAddr := [] }],
      mapScheduledTxs := [([1], some { nonce := 0, sndAddr := [], rcvAddr := [] })],
      mapScheduledIntermediateTxs := [], scheduledRootHash := [],
      scheduledGasAndFees := ⟨0, 0, 0, 0, 0⟩, scheduledMiniBlocks := none }
    (fun _ => -1) 0).2.1 (by norm_num) (by omega) (by norm_num)
  simpa using h

/-- C7: reading back a stored blob whose mini-block slice is absent, both
`getScheduledInfoForHeader` and `RollBackToBlock` normalize the mini-blocks
to an empty (non-nil) slice while root hash and gas-and-fees keep the
stored values. -/
theorem scheduledInfo_miniBlocks_normalized :
    ∀ (storerGet : StorerGet) (unmarshalSSCR : UnmarshalSSCR)
      (s : ScheduledTxsExecutionState) (headerHash blob : Bytes) (sscrs : ScheduledSCRs),
      storerGet headerHash = Except.ok blob →
      unmarshalSSCR blob = Except.ok sscrs →
      sscrs.miniBlocks = none →
      getScheduledInfoForHeader storerGet unmarshalSSCR headerHash
        = Except.ok { rootHash := sscrs.rootHash, intermediateTxs := sscrs.scrs,
                      gasAndFees := sscrs.gasAndFees, miniBlocks := some [] }
      ∧ RollBackToBlock storerGet unmarshalSSCR s headerHash
        = Except.ok { s with scheduledRootHash := sscrs.rootHash,
                             mapScheduledIntermediateTxs := sscrs.scrs,
                             scheduledGasAndFees := sscrs.gasAndFees,
                             scheduledMiniBlocks := some [] } := by
  intro sg um s hh blob sscrs h1 h2 h3
  have hinfo : getScheduledInfoForHeader sg um hh
      = Except.ok { rootHash := sscrs.rootHash, intermediateTxs := sscrs.scrs,
                    gasAndFees := sscrs.gasAndFees, miniBlocks := some [] } := by
    rw [getScheduledInfoForHeader, h1]
    simp only [h2, h3]
    rfl
  refine ⟨hinfo, ?_⟩
  rw [RollBackToBlock, hinfo]
  rfl

/-- C7 witness: a concrete blob with absent mini-blocks reads back with an
empty mini-block slice. -/
theorem scheduledInfo_miniBlocks_normalized_witness :
    getScheduledInfoForHeader (fun _ => Except.ok [5])
        (fun _ => Except.ok { rootHash := [2], scrs := [],
                              gasAndFees := ⟨101, 102, 103, 104, 105⟩, miniBlocks := none })
        [9]
      = Except.ok { rootHash := [2], intermediateTxs := [],
                    gasAndFees := ⟨101, 102, 103, 104, 105⟩, miniBlocks := some [] } := by
  exact (scheduledInfo_miniBlocks_normalized (fun _ => Except.ok [5])
    (fun _ => Except.ok { rootHash := [2], scrs := [],
                          gasAndFees := ⟨101, 102, 103, 104, 105⟩, miniBlocks := none })
    { scheduledTxs := [], mapScheduledTxs := [], mapScheduledIntermediateTxs := [],
      scheduledRootHash := [], scheduledGasAndFees := ⟨0, 0, 0, 0, 0⟩,
      scheduledMiniBlocks := none }
    [9] [5] { rootHash := [2], scrs := [], gasAndFees := ⟨101, 102, 103, 104, 105⟩,
              miniBlocks := none } rfl rfl rfl).1

/-! ### Support for the assembly theorem -/

/-- Reading a mapped range with `getD` evaluates the function. -/
lemma getD_map_range {α : Type} (n j : Nat) (f : Nat → α) (d : α) (hj : j < n) :
    ((List.range n).map f).getD j d = f j := by
  rw [List.getD_eq_getElem?_getD, List.getElem?_map, List.getElem?_range hj]
  rfl

/-- Setting an entry of a mapped range updates the function pointwise. -/
lemma set_map_range {α : Type} (n j : Nat) (f : Nat → α) (a : α) (hj : j < n) :
    ((List.range n).map f).set j a
      = (List.range n).map (fun i => if i = j then a else f i) := by
  apply List.ext_getElem?
  intro i
  rw [List.getElem?_set]
  simp only [List.length_map, List.length_range]
  by_cases hij : j = i
  · subst hij
    rw [if_pos rfl, if_pos hj, List.getElem?_map, List.getElem?_range hj]
    simp
  · rw [if_neg hij, List.getElem?_map, List.getElem?_map]
    by_cases hi : i < n
    · rw [List.getElem?_range hi]
      have hne : i ≠ j := fun hyp => hij hyp.symm
      simp [hne]
    · rw [List.getElem?_eq_none (by simpa [Nat.not_lt] using hi)]
      rfl

/-- A fresh slab is the `chunkFor` state in which everything is missing. -/
lemma newChunk_eq_chunkFor (n : Nat) (p : Nat → Bytes) (order : List Nat)
    (hyp : ∀ i, i < n → i ∈ order) :
    NewChunk n = chunkFor n p order := by
  unfold NewChunk chunkFor
  congr 1
  have hrepl : List.replicate n (none : Option Bytes)
      = (List.range n).map (fun _ => none) := by
    rw [List.map_const']
    simp
  rw [hrepl]
  apply List.map_congr_left
  intro i hi
  rw [List.mem_range] at hi
  simp [hyp i hi]

/-- Putting the chunk for missing index `j` moves the slab from
`chunkFor (j :: rest)` to `chunkFor rest`. -/
lemma chunkFor_put (n : Nat) (p : Nat → Bytes) (j : Nat) (rest : List Nat)
    (hj : j < n) (hnotin : j ∉ rest) :
    (chunkFor n p (j :: rest)).Put j (p j) = chunkFor n p rest := by
  have hslot : (chunkFor n p (j :: rest)).slots.getD j (some []) = none := by
    unfold chunkFor
    rw [getD_map_range n j _ (some []) hj]
    simp
  unfold Chunk.Put
  rw [if_pos (by simp only [chunkFor] at hslot ⊢; simp [hj, hslot])]
  unfold chunkFor
  congr 1
  rw [set_map_range n j _ (some (p j)) hj]
  apply List.map_congr_left
  intro i _
  by_cases hij : i = j
  · subst hij
    simp [hnotin]
  · simp [hij, List.mem_cons]

/-- A slab still missing some in-range index does not assemble. -/
lemma chunkFor_assemble_missing (n : Nat) (p : Nat → Bytes) (rest : List Nat)
    (j : Nat) (hjmem : j ∈ rest) (hj : j < n) :
    (chunkFor n p rest).TryAssembleAllChunks = [] := by
  unfold Chunk.TryAssembleAllChunks
  rw [if_neg ?hc]
  case hc =>
    intro hall
    rw [List.all_eq_true] at hall
    have hmem : (none : Option Bytes) ∈ (chunkFor n p rest).slots := by
      unfold chunkFor
      rw [List.mem_map]
      exact ⟨j, by simp [List.mem_range, hj], by simp [hjmem]⟩
    have hfalse := hall none hmem
    simp at hfalse

/-- A slab missing nothing assembles to the payload concatenation in index
order. -/
lemma chunkFor_assemble_complete (n : Nat) (p : Nat → Bytes) :
    (chunkFor n p []).TryAssembleAllChunks = ((List.range n).map p).flatten := by
  unfold Chunk.TryAssembleAllChunks chunkFor
  rw [if_pos ?hc]
  case hc =>
    rw [List.all_eq_true]
    intro sl hsl
    rw [List.mem_map] at hsl
    obtain ⟨i, _, hi⟩ := hsl
    simp only [List.not_mem_nil, if_false] at hi
    rw [← hi]
    rfl
  simp only [List.map_map]
  congr 1

/-- Lookup in the singleton cache. -/
lemma cacheGet_singleton (ref : Bytes) (c : Chunk) :
    cacheGet [(ref, c)] ref = some c := by
  simp [cacheGet, assocGet]

/-- Lookup in the empty cache. -/
lemma cacheGet_nil (ref : Bytes) : cacheGet [] ref = none := rfl

/-- Update of the singleton cache. -/
lemma cachePut_singleton (ref : Bytes) (c c2 : Chunk) :
    cachePut [(ref, c)] ref c2 = [(ref, c2)] := by
  simp [cachePut]

/-- Removal from the singleton cache. -/
lemma cacheRemove_singleton (ref : Bytes) (c : Chunk) :
    cacheRemove [(ref, c)] ref = [] := by
  simp [cacheRemove]

/-- One mid-run `CheckBatch` call: filling missing index `j` while `rest`
stays missing reports an incomplete chunk and reinserts the grown slab. -/
lemma checkBatch_step_mid (hs : Nat) (ref : Bytes) (n : Nat) (p : Nat → Bytes)
    (cache : ChunksCache) (j : Nat) (rest : List Nat)
    (href : ref.length = hs) (hn : 2 ≤ n)
    (hchunk : (match cacheGet cache ref with
               | some c => c
               | none => NewChunk n) = chunkFor n p (j :: rest))
    (hj : j < n) (hnotin : j ∉ rest) (hne : rest ≠ [])
    (hbound : ∀ i ∈ rest, i < n) :
    CheckBatch hs cache (mkChunkBatch ref n p j)
      = (cachePut cache ref (chunkFor n p rest),
         { IsChunk := true, HaveAllChunks := false, CompleteBuffer := [] }, none) := by
  obtain ⟨k, rest2, hrest⟩ : ∃ k rest2, rest = k :: rest2 := by
    cases rest with
    | nil => exact absurd rfl hne
    | cons k rest2 => exact ⟨k, rest2, rfl⟩
  have hk : k ∈ rest := by rw [hrest]; exact List.mem_cons_self _ _
  rw [checkBatch_eq]
  rw [if_neg (by simp [mkChunkBatch]; omega), if_neg (by simp [mkChunkBatch, href]),
    if_neg (by simp [mkChunkBatch])]
  unfold processCheckRequest
  simp only [mkChunkBatch, List.getD_cons_zero]
  simp only [hchunk, chunkFor_put n p j rest hj hnotin,
    chunkFor_assemble_missing n p rest k hk (hbound k hk)]
  simp

/-- The final `CheckBatch` call: filling the last missing index `j`
assembles the complete non-empty buffer and removes the reference. -/
lemma checkBatch_step_last (hs : Nat) (ref : Bytes) (n : Nat) (p : Nat → Bytes)
    (cache : ChunksCache) (j : Nat)
    (href : ref.length = hs) (hn : 2 ≤ n)
    (hfull : 0 < ((List.range n).map p).flatten.length)
    (hchunk : (match cacheGet cache ref with
               | some c => c
               | none => NewChunk n) = chunkFor n p [j])
    (hj : j < n) :
    CheckBatch hs cache (mkChunkBatch ref n p j)
      = (cacheRemove cache ref,
         { IsChunk := true, HaveAllChunks := true,
           CompleteBuffer := ((List.range n).map p).flatten }, none) := by
  rw [checkBatch_eq]
  rw [if_neg (by simp [mkChunkBatch]; omega), if_neg (by simp [mkChunkBatch, href]),
    if_neg (by simp [mkChunkBatch])]
  unfold processCheckRequest
  simp only [mkChunkBatch, List.getD_cons_zero]
  simp only [hchunk, chunkFor_put n p j [] hj (List.not_mem_nil j),
    chunkFor_assemble_complete n p]
  rw [if_pos hfull]
  have hsum : 0 < (List.map (List.length ∘ p) (List.range n)).sum := by
    simpa using hfull
  simp [hsum]

/-- Filtering a replicate by a failing predicate gives the empty list. -/
lemma filter_replicate_false {α : Type} (m : Nat) (a : α) (q : α → Bool)
    (hq : q a = false) : (List.replicate m a).filter q = [] := by
  induction m with
  | zero => rfl
  | succ m ih => rw [List.replicate_succ, List.filter_cons, hq]; exact ih

/-- Running the remaining submissions against the singleton cache holding
`chunkFor rest` yields incomplete replies followed by one complete reply
carrying the full concatenation, and empties the cache. -/
lemma runCheckBatches_loop (hs : Nat) (ref : Bytes) (n : Nat) (p : Nat → Bytes)
    (href : ref.length = hs) (hn : 2 ≤ n)
    (hfull : 0 < ((List.range n).map p).flatten.length) :
    ∀ (rest : List Nat), rest ≠ [] → rest.Nodup → (∀ i ∈ rest, i < n) →
      runCheckBatches hs [(ref, chunkFor n p rest)] (rest.map (mkChunkBatch ref n p))
        = ([], List.replicate (rest.length - 1)
            { IsChunk := true, HaveAllChunks := false, CompleteBuffer := [] }
            ++ [{ IsChunk := true, HaveAllChunks := true,
                  CompleteBuffer := ((List.range n).map p).flatten }]) := by
  intro rest
  induction rest with
  | nil => intro h _ _; exact absurd rfl h
  | cons j rest ih =>
    intro _ hnodup hbound
    have hj : j < n := hbound j (List.mem_cons_self _ _)
    have hnotin : j ∉ rest := (List.nodup_cons.mp hnodup).1
    have hchunk : (match cacheGet [(ref, chunkFor n p (j :: rest))] ref with
        | some c => c
        | none => NewChunk n) = chunkFor n p (j :: rest) := by
      rw [cacheGet_singleton]
    rw [List.map_cons, runCheckBatches]
    cases hr : rest with
    | nil =>
      rw [checkBatch_step_last hs ref n p _ j href hn hfull (hr ▸ hchunk) hj]
      rw [cacheRemove_singleton]
      simp [runCheckBatches]
    | cons k rest2 =>
      rw [← hr]
      rw [checkBatch_step_mid hs ref n p _ j rest href hn hchunk hj hnotin
        (by rw [hr]; exact List.cons_ne_nil _ _)
        (fun i hi => hbound i (List.mem_cons_of_mem _ hi))]
      rw [cachePut_singleton]
      rw [ih (by rw [hr]; exact List.cons_ne_nil _ _) (List.nodup_cons.mp hnodup).2
        (fun i hi => hbound i (List.mem_cons_of_mem _ hi))]
      have hlen : (j :: rest).length - 1 = (rest.length - 1) + 1 := by
        rw [hr]
        simp
      rw [hlen, List.replicate_succ]
      simp

/-- C1 counterexample: with `maxChunks = 2`, a matching reference length and
the two distinct pairs `(0, [])`, `(1, [])` — all payloads empty — no
`CheckBatch` call ever returns `HaveAllChunks = true`, although the claim
requires exactly one such call for every permutation of distinct pairs. -/
theorem ctrp_assembly_counterexample :
    ((runCheckBatches 2 []
        [{ Reference := [0, 0], ChunkIndex := 0, MaxChunks := 2, Data := [[]] },
         { Reference := [0, 0], ChunkIndex := 1, MaxChunks := 2, Data := [[]] }]).2.filter
      (fun r => r.HaveAllChunks)).length = 0
    ∧ (2 : Nat) ≥ 2
    ∧ ([0, 0] : Bytes).length = 2 := by
  refine ⟨by decide, by decide, by decide⟩

/-- C1 (amended): for every `maxChunks ≥ 2` and every permutation of the
`maxChunks` distinct `(index, payload)` pairs submitted one at a time via
`CheckBatch` under the same hash-sized reference, provided the concatenation
of the payloads is non-empty, exactly one call — the final one — returns
`HaveAllChunks = true` with `CompleteBuffer` equal to the concatenation of
the payloads in ascending index order, and every call made before it
returns `HaveAllChunks = false`. -/
theorem ctrp_assembly_order_independent :
    ∀ (hasherSize : Nat) (ref : Bytes) (n : Nat) (p : Nat → Bytes) (order : List Nat),
      ref.length = hasherSize → 2 ≤ n → List.Perm order (List.range n) →
      0 < ((List.range n).map p).flatten.length →
      (runCheckBatches hasherSize [] (order.map (mkChunkBatch ref n p))).2
        = List.replicate (n - 1)
            { IsChunk := true, HaveAllChunks := false, CompleteBuffer := [] }
          ++ [{ IsChunk := true, HaveAllChunks := true,
                CompleteBuffer := ((List.range n).map p).flatten }]
      ∧ ((runCheckBatches hasherSize [] (order.map (mkChunkBatch ref n p))).2.filter
            (fun r => r.HaveAllChunks)).length = 1 := by
  intro hs ref n p order href hn hperm hfull
  have hlen : order.length = n := by rw [hperm.length_eq, List.length_range]
  have hnodup : order.Nodup := hperm.nodup_iff.mpr (List.nodup_range n)
  have hmem : ∀ i, i ∈ order ↔ i < n := by
    intro i
    rw [hperm.mem_iff, List.mem_range]
  have hmain : (runCheckBatches hs [] (order.map (mkChunkBatch ref n p))).2
      = List.replicate (n - 1)
          { IsChunk := true, HaveAllChunks := false, CompleteBuffer := [] }
        ++ [{ IsChunk := true, HaveAllChunks := true,
              CompleteBuffer := ((List.range n).map p).flatten }] := by
    cases horder : order with
    | nil =>
      rw [horder] at hlen
      simp at hlen
      omega
    | cons j rest =>
      have hj : j < n := (hmem j).mp (by rw [horder]; exact List.mem_cons_self _ _)
      have hnodup2 : (j :: rest).Nodup := horder ▸ hnodup
      have hnotin : j ∉ rest := (List.nodup_cons.mp hnodup2).1
      have hrestne : rest ≠ [] := by
        intro hyp
        rw [horder, hyp] at hlen
        simp at hlen
        omega
      have hchunk : (match cacheGet [] ref with
          | some c => c
          | none => NewChunk n) = chunkFor n p (j :: rest) := by
        rw [cacheGet_nil]
        exact newChunk_eq_chunkFor n p (j :: rest)
          (fun i hi => by rw [← horder]; exact (hmem i).mpr hi)
      rw [List.map_cons, runCheckBatches]
      rw [checkBatch_step_mid hs ref n p [] j rest href hn hchunk hj hnotin hrestne
        (fun i hi => (hmem i).mp (by rw [horder]; exact List.mem_cons_of_mem _ hi))]
      rw [show cachePut [] ref (chunkFor n p rest) = [(ref, chunkFor n p rest)] from rfl]
      rw [runCheckBatches_loop hs ref n p href hn hfull rest hrestne
        (List.nodup_cons.mp hnodup2).2
        (fun i hi => (hmem i).mp (by rw [horder]; exact List.mem_cons_of_mem _ hi))]
      have hlen2 : n - 1 = (rest.length - 1) + 1 := by
        rw [horder] at hlen
        simp only [List.length_cons] at hlen
        have hrl : 1 ≤ rest.length := by
          cases hr2 : rest with
          | nil => exact absurd hr2 hrestne
          | cons k rest2 => simp
        omega
      rw [hlen2, List.replicate_succ]
      simp
  refine ⟨hmain, ?_⟩
  have hfilter : (List.replicate (n - 1)
      ({ IsChunk := true, HaveAllChunks := false,
         CompleteBuffer := [] } : CheckedChunkResult)).filter
      (fun r => r.HaveAllChunks) = [] :=
    filter_replicate_false (n - 1) _ _ rfl
  rw [hmain, List.filter_append, hfilter]
  simp

/-- C1 witness: `maxChunks = 2`, payloads `[1]` and `[2]`, submitted in the
order `[1, 0]`: the first call reports incomplete, the second completes with
buffer `[1, 2]`. -/
theorem ctrp_assembly_order_independent_witness :
    (runCheckBatches 1 [] ([1, 0].map (mkChunkBatch [7] 2 (fun i => [i + 1])))).2
      = List.replicate 1 { IsChunk := true, HaveAllChunks := false, CompleteBuffer := [] }
        ++ [{ IsChunk := true, HaveAllChunks := true,
              CompleteBuffer := ((List.range 2).map (fun i => [i + 1])).flatten }] := by
  exact (ctrp_assembly_order_independent 1 [7] 2 (fun i => [i + 1]) [1, 0] rfl (by norm_num)
    (by decide) (by decide)).1

end ElrondSpec
